import Mathlib

/-!
Verification of the edit-lock and live-refresh coordination core of the
`alive` repository.

The Python module `src/alive/store.py` keeps a process-wide dict
`_edit_locks : dict[(model_label, item_id, field_name), session_id]` with
operations `acquire_lock`, `release_lock`, `get_lock_holder` and
`release_all_locks`.  A Python dict is a finite map; we embed it as an
association list whose keys are unique (an invariant the operations
preserve), with `lookupA` / `setA` / `eraseA` as the dict primitives.
-/

namespace Alive

/-- Dict lookup: value of the first entry with the given key. -/
def lookupA {α β : Type} [DecidableEq α] : List (α × β) → α → Option β
  | [], _ => none
  | (a, b) :: rest, x => if a = x then some b else lookupA rest x

/-- Dict assignment `d[x] = v`: overwrite in place, or append when absent
(Python dicts keep insertion order). -/
def setA {α β : Type} [DecidableEq α] : List (α × β) → α → β → List (α × β)
  | [], x, v => [(x, v)]
  | (a, b) :: rest, x, v =>
      if a = x then (x, v) :: rest else (a, b) :: setA rest x v

/-- Dict deletion `del d[x]`: drop every entry with the key (there is at most
one under the unique-keys invariant). -/
def eraseA {α β : Type} [DecidableEq α] : List (α × β) → α → List (α × β)
  | [], _ => []
  | (a, b) :: rest, x =>
      if a = x then eraseA rest x else (a, b) :: eraseA rest x

/-- A lock key, as in `_edit_locks`: `(model_label, item_id, field_name)`. -/
abbrev Key := String × String × String

/-- The global lock registry `_edit_locks`. -/
abbrev Registry := List (Key × String)

/-- The keys of the registry are pairwise distinct (dict well-formedness). -/
abbrev KeysNodup (r : Registry) : Prop := (r.map Prod.fst).Nodup

/-- Embedding of `store.acquire_lock`: succeed when the key is unheld or
already held by `session_id`; fail (state unchanged) otherwise. -/
def acquire_lock (r : Registry) (k : Key) (sid : String) : Bool × Registry :=
  match lookupA r k with
  | none => (true, setA r k sid)
  | some h => if h = sid then (true, r) else (false, r)

/-- Embedding of `store.release_lock`: remove the entry only when this
session holds it; otherwise a no-op returning false. -/
def release_lock (r : Registry) (k : Key) (sid : String) : Bool × Registry :=
  if lookupA r k = some sid then (true, eraseA r k) else (false, r)

/-- Embedding of `store.get_lock_holder`: the holder of a key, if any. -/
def get_lock_holder (r : Registry) (k : Key) : Option String :=
  lookupA r k

/-- Embedding of `store.release_all_locks`: remove every entry held by the
session, returning the removed keys (in registry order). -/
def release_all_locks : Registry → String → List Key × Registry
  | [], _ => ([], [])
  | (k, h) :: rest, sid =>
      if h = sid then
        (k :: (release_all_locks rest sid).1, (release_all_locks rest sid).2)
      else
        ((release_all_locks rest sid).1, (k, h) :: (release_all_locks rest sid).2)

/-- The pub/sub channel of an entity kind, as in `DjangoDataStore.__init__`
(`alive:` followed by the model label). -/
def channelOf (k : Key) : String := "alive:" ++ k.1

/-- Embedding of `GeneratedModelLiveView.disconnect` (src/alive/views.py):
release every lock of the session, then broadcast a `locks_released` event
on the channel of each affected model. -/
def disconnect (r : Registry) (sid : String) : Registry × List (String × String) :=
  ((release_all_locks r sid).2,
   (((release_all_locks r sid).1.map channelOf).dedup).map
     (fun c => (c, "locks_released")))

/-- Number of registry entries for one key. -/
def countKey (r : Registry) (k : Key) : Nat :=
  r.countP (fun e => e.1 == k)

/-- One call against the registry, for reasoning about arbitrary histories. -/
inductive LockOp : Type
  | acquire (k : Key) (sid : String)
  | release (k : Key) (sid : String)
  | releaseAll (sid : String)

/-- Apply one registry operation, keeping only the state. -/
def applyOp (r : Registry) : LockOp → Registry
  | .acquire k sid => (acquire_lock r k sid).2
  | .release k sid => (release_lock r k sid).2
  | .releaseAll sid => (release_all_locks r sid).2

/-- Run a finite history of registry operations from the empty registry. -/
def runOps (ops : List LockOp) : Registry :=
  ops.foldl applyOp []

section AssocLemmas

variable {α β : Type} [DecidableEq α]

theorem lookupA_setA_self (l : List (α × β)) (x : α) (v : β) :
    lookupA (setA l x v) x = some v := by
  induction l with
  | nil => simp [setA, lookupA]
  | cons hd tl ih =>
      obtain ⟨a, b⟩ := hd
      by_cases hax : a = x
      · simp [setA, hax, lookupA]
      · simp [setA, hax, lookupA, ih]

theorem lookupA_setA_ne (l : List (α × β)) {x y : α} (v : β) (hxy : y ≠ x) :
    lookupA (setA l x v) y = lookupA l y := by
  induction l with
  | nil => simp [setA, lookupA, Ne.symm hxy]
  | cons hd tl ih =>
      obtain ⟨a, b⟩ := hd
      by_cases hax : a = x
      · subst hax
        simp [setA, lookupA, Ne.symm hxy]
      · by_cases hay : a = y
        · simp [setA, hax, lookupA, hay, hxy]
        · simp [setA, hax, lookupA, hay, ih]

theorem lookupA_eraseA_self (l : List (α × β)) (x : α) :
    lookupA (eraseA l x) x = none := by
  induction l with
  | nil => simp [eraseA, lookupA]
  | cons hd tl ih =>
      obtain ⟨a, b⟩ := hd
      by_cases hax : a = x
      · simp [eraseA, hax, ih]
      · simp [eraseA, hax, lookupA, ih]

theorem lookupA_eraseA_ne (l : List (α × β)) {x y : α} (hxy : y ≠ x) :
    lookupA (eraseA l x) y = lookupA l y := by
  induction l with
  | nil => simp [eraseA]
  | cons hd tl ih =>
      obtain ⟨a, b⟩ := hd
      by_cases hax : a = x
      · subst hax
        simp [eraseA, lookupA, Ne.symm hxy, ih]
      · simp [eraseA, hax, lookupA, ih]

theorem lookupA_eq_none_iff (l : List (α × β)) (x : α) :
    lookupA l x = none ↔ x ∉ l.map Prod.fst := by
  induction l with
  | nil => simp [lookupA]
  | cons hd tl ih =>
      obtain ⟨a, b⟩ := hd
      by_cases hax : a = x
      · simp [lookupA, hax]
      · simp [lookupA, hax, ih, Ne.symm hax]

theorem lookupA_mem_of_eq_some {l : List (α × β)} {x : α} {v : β}
    (h : lookupA l x = some v) : (x, v) ∈ l := by
  induction l with
  | nil => simp [lookupA] at h
  | cons hd tl ih =>
      obtain ⟨a, b⟩ := hd
      by_cases hax : a = x
      · subst hax
        simp [lookupA] at h
        simp [h]
      · simp [lookupA, hax] at h
        exact List.mem_cons_of_mem _ (ih h)

theorem lookupA_eq_some_of_mem {l : List (α × β)} {x : α} {v : β}
    (hnd : (l.map Prod.fst).Nodup) (h : (x, v) ∈ l) :
    lookupA l x = some v := by
  induction l with
  | nil => simp at h
  | cons hd tl ih =>
      obtain ⟨a, b⟩ := hd
      simp only [List.map_cons, List.nodup_cons] at hnd
      rcases List.mem_cons.mp h with heq | hmem
      · injection heq with h1 h2
        subst h1
        subst h2
        simp [lookupA]
      · have hax : a ≠ x := by
          intro hax
          exact hnd.1 (hax ▸ (List.mem_map_of_mem Prod.fst hmem))
        simp [lookupA, hax, ih hnd.2 hmem]

theorem setA_keys (l : List (α × β)) (x : α) (v : β) :
    (setA l x v).map Prod.fst =
      if x ∈ l.map Prod.fst then l.map Prod.fst
      else l.map Prod.fst ++ [x] := by
  induction l with
  | nil => simp [setA]
  | cons hd tl ih =>
      obtain ⟨a, b⟩ := hd
      by_cases hax : a = x
      · subst hax
        simp [setA]
      · have hxa : ¬ x = a := fun h => hax h.symm
        by_cases hx : x ∈ tl.map Prod.fst
        · simp [setA, hax, ih, hx, hxa]
        · simp [setA, hax, ih, hx, hxa]

theorem setA_keys_nodup {l : List (α × β)} (x : α) (v : β)
    (hnd : (l.map Prod.fst).Nodup) :
    ((setA l x v).map Prod.fst).Nodup := by
  rw [setA_keys]
  by_cases hx : x ∈ l.map Prod.fst
  · simpa [hx] using hnd
  · simp [hx, List.nodup_append, hnd]

theorem eraseA_sublist (l : List (α × β)) (x : α) :
    List.Sublist (eraseA l x) l := by
  induction l with
  | nil => exact List.Sublist.refl []
  | cons hd tl ih =>
      obtain ⟨a, b⟩ := hd
      by_cases hax : a = x
      · simpa [eraseA, hax] using ih.cons _
      · simpa [eraseA, hax] using ih.cons₂ (a, b)

theorem eraseA_keys_nodup {l : List (α × β)} (x : α)
    (hnd : (l.map Prod.fst).Nodup) :
    ((eraseA l x).map Prod.fst).Nodup :=
  hnd.sublist ((eraseA_sublist l x).map Prod.fst)

end AssocLemmas

section RegistryLemmas

theorem release_all_fst_mem (r : Registry) (sid : String) (k : Key) :
    k ∈ (release_all_locks r sid).1 ↔ (k, sid) ∈ r := by
  induction r with
  | nil => simp [release_all_locks]
  | cons hd tl ih =>
      obtain ⟨k', h'⟩ := hd
      by_cases hh : h' = sid
      · subst hh
        simp [release_all_locks, ih]
      · simp [release_all_locks, hh, ih, Ne.symm hh]

theorem release_all_snd_lookup_none (r : Registry) (sid : String) (k : Key)
    (h : lookupA r k = none) :
    lookupA (release_all_locks r sid).2 k = none := by
  induction r with
  | nil => simp [release_all_locks, lookupA]
  | cons hd tl ih =>
      obtain ⟨k', h'⟩ := hd
      by_cases hk : k' = k
      · simp [lookupA, hk] at h
      · simp only [lookupA, if_neg hk] at h
        by_cases hh : h' = sid
        · simp [release_all_locks, hh, ih h]
        · simp [release_all_locks, hh, lookupA, hk, ih h]

theorem release_all_snd_lookup_ne (r : Registry) (sid b : String) (k : Key)
    (hb : b ≠ sid) (h : lookupA r k = some b) :
    lookupA (release_all_locks r sid).2 k = some b := by
  induction r with
  | nil => simp [lookupA] at h
  | cons hd tl ih =>
      obtain ⟨k', h'⟩ := hd
      by_cases hk : k' = k
      · subst hk
        have hb2 : h' = b := by simpa [lookupA] using h
        subst hb2
        simp [release_all_locks, hb, lookupA]
      · simp only [lookupA, if_neg hk] at h
        by_cases hh : h' = sid
        · simp [release_all_locks, hh, ih h]
        · simp [release_all_locks, hh, lookupA, hk, ih h]

theorem release_all_snd_lookup_self (r : Registry) (sid : String) (k : Key)
    (hnd : KeysNodup r) (h : lookupA r k = some sid) :
    lookupA (release_all_locks r sid).2 k = none := by
  induction r with
  | nil => simp [lookupA] at h
  | cons hd tl ih =>
      obtain ⟨k', h'⟩ := hd
      simp only [KeysNodup, List.map_cons, List.nodup_cons] at hnd
      by_cases hk : k' = k
      · subst hk
        have hs2 : h' = sid := by simpa [lookupA] using h
        subst hs2
        have htl : lookupA tl k' = none :=
          (lookupA_eq_none_iff tl k').mpr hnd.1
        simp [release_all_locks, release_all_snd_lookup_none tl h' k' htl]
      · simp only [lookupA, if_neg hk] at h
        by_cases hh : h' = sid
        · simp [release_all_locks, hh, ih hnd.2 h]
        · simp [release_all_locks, hh, lookupA, hk, ih hnd.2 h]

theorem release_all_snd_sublist (r : Registry) (sid : String) :
    List.Sublist (release_all_locks r sid).2 r := by
  induction r with
  | nil => exact List.Sublist.refl []
  | cons hd tl ih =>
      obtain ⟨k', h'⟩ := hd
      by_cases hh : h' = sid
      · simpa [release_all_locks, hh] using ih.cons _
      · simpa [release_all_locks, hh] using ih.cons₂ (k', h')

theorem release_all_fst_sublist (r : Registry) (sid : String) :
    List.Sublist (release_all_locks r sid).1 (r.map Prod.fst) := by
  induction r with
  | nil => exact List.Sublist.refl []
  | cons hd tl ih =>
      obtain ⟨k', h'⟩ := hd
      by_cases hh : h' = sid
      · simpa [release_all_locks, hh] using ih.cons₂ k'
      · simpa [release_all_locks, hh] using ih.cons _

theorem release_all_snd_keysNodup (r : Registry) (sid : String)
    (hnd : KeysNodup r) : KeysNodup (release_all_locks r sid).2 :=
  hnd.sublist ((release_all_snd_sublist r sid).map Prod.fst)

theorem release_all_fst_nodup (r : Registry) (sid : String)
    (hnd : KeysNodup r) : (release_all_locks r sid).1.Nodup :=
  hnd.sublist (release_all_fst_sublist r sid)

theorem keysNodup_acquire (r : Registry) (k : Key) (sid : String)
    (hnd : KeysNodup r) : KeysNodup (acquire_lock r k sid).2 := by
  unfold acquire_lock
  cases hl : lookupA r k with
  | none => exact setA_keys_nodup k sid hnd
  | some h =>
      by_cases hs : h = sid
      · simpa [hs] using hnd
      · simpa [hs] using hnd

theorem keysNodup_release (r : Registry) (k : Key) (sid : String)
    (hnd : KeysNodup r) : KeysNodup (release_lock r k sid).2 := by
  unfold release_lock
  by_cases hl : lookupA r k = some sid
  · simpa [hl] using eraseA_keys_nodup k hnd
  · simpa [hl] using hnd

theorem keysNodup_applyOp (r : Registry) (op : LockOp)
    (hnd : KeysNodup r) : KeysNodup (applyOp r op) := by
  cases op with
  | acquire k sid => exact keysNodup_acquire r k sid hnd
  | release k sid => exact keysNodup_release r k sid hnd
  | releaseAll sid => exact release_all_snd_keysNodup r sid hnd

theorem keysNodup_foldl (ops : List LockOp) (r : Registry)
    (hnd : KeysNodup r) : KeysNodup (ops.foldl applyOp r) := by
  induction ops generalizing r with
  | nil => exact hnd
  | cons op rest ih => exact ih _ (keysNodup_applyOp r op hnd)

theorem keysNodup_runOps (ops : List LockOp) : KeysNodup (runOps ops) :=
  keysNodup_foldl ops [] (by simp [KeysNodup])

theorem acquire_lock_success_holder (r : Registry) (k : Key) (sid : String)
    (h : (acquire_lock r k sid).1 = true) :
    get_lock_holder (acquire_lock r k sid).2 k = some sid := by
  unfold acquire_lock at *
  unfold get_lock_holder
  cases hl : lookupA r k with
  | none => simp [lookupA_setA_self]
  | some h' =>
      rw [hl] at h
      by_cases hs : h' = sid
      · simp [hs, hl]
      · simp [hs] at h

theorem countKey_eq_zero_of_lookup_none (r : Registry) (k : Key)
    (h : lookupA r k = none) : countKey r k = 0 := by
  rw [countKey, List.countP_eq_zero]
  intro e he
  have hk := (lookupA_eq_none_iff r k).mp h
  have : e.1 ≠ k := by
    intro heq
    exact hk (heq ▸ List.mem_map_of_mem Prod.fst he)
  simpa using this

theorem countKey_eq_one_of_lookup_some (r : Registry) (k : Key) (v : String)
    (hnd : KeysNodup r) (h : lookupA r k = some v) : countKey r k = 1 := by
  induction r with
  | nil => simp [lookupA] at h
  | cons hd tl ih =>
      obtain ⟨k', h'⟩ := hd
      simp only [KeysNodup, List.map_cons, List.nodup_cons] at hnd
      by_cases hk : k' = k
      · subst hk
        have htl : lookupA tl k' = none :=
          (lookupA_eq_none_iff tl k').mpr hnd.1
        have := countKey_eq_zero_of_lookup_none tl k' htl
        simp [countKey, List.countP_cons] at this ⊢
        simpa [countKey] using this
      · simp only [lookupA, if_neg hk] at h
        have := ih hnd.2 h
        simp only [countKey, List.countP_cons] at this ⊢
        simpa [hk] using this

theorem acquire_lock_unheld (r : Registry) (k : Key) (sid : String)
    (h : lookupA r k = none) :
    acquire_lock r k sid = (true, setA r k sid) := by
  unfold acquire_lock
  rw [h]

theorem acquire_lock_held_self (r : Registry) (k : Key) (sid : String)
    (h : lookupA r k = some sid) :
    acquire_lock r k sid = (true, r) := by
  unfold acquire_lock
  rw [h]
  simp

theorem acquire_lock_held_other (r : Registry) (k : Key) {sid b : String}
    (h : lookupA r k = some b) (hb : b ≠ sid) :
    acquire_lock r k sid = (false, r) := by
  unfold acquire_lock
  rw [h]
  simp [hb]

theorem release_lock_held_self (r : Registry) (k : Key) (sid : String)
    (h : lookupA r k = some sid) :
    release_lock r k sid = (true, eraseA r k) := by
  unfold release_lock
  rw [if_pos h]

theorem release_lock_not_held (r : Registry) (k : Key) (sid : String)
    (h : lookupA r k ≠ some sid) :
    release_lock r k sid = (false, r) := by
  unfold release_lock
  rw [if_neg h]

end RegistryLemmas

/-- C1: Lock-registry mutual exclusion.  Starting from the empty registry,
after any finite sequence of acquire, release and release_all operations,
every lock key maps to at most one holder (two entries for one key agree),
and whenever the key is held by `b`, an acquire of that key by any `a ≠ b`
returns false and leaves the registry — hence the holder `b` — unchanged. -/
theorem lock_registry_mutual_exclusion (ops : List LockOp) :
    (∀ k s t, (k, s) ∈ runOps ops → (k, t) ∈ runOps ops → s = t) ∧
    (∀ k a b, get_lock_holder (runOps ops) k = some b → a ≠ b →
      acquire_lock (runOps ops) k a = (false, runOps ops)) := by
  constructor
  · intro k s t hs ht
    have hnd := keysNodup_runOps ops
    have h1 := lookupA_eq_some_of_mem hnd hs
    have h2 := lookupA_eq_some_of_mem hnd ht
    rw [h1] at h2
    exact Option.some.inj h2
  · intro k a b hb hab
    exact acquire_lock_held_other (runOps ops) k hb (Ne.symm hab)

/-- Witness for C1: in the history where session `B` acquired the key, a
later acquire by `A` returns false and leaves the registry unchanged. -/
theorem lock_registry_mutual_exclusion_witness :
    acquire_lock (runOps [LockOp.acquire ("m", "1", "f") "B"]) ("m", "1", "f") "A" =
      (false, runOps [LockOp.acquire ("m", "1", "f") "B"]) :=
  (lock_registry_mutual_exclusion [LockOp.acquire ("m", "1", "f") "B"]).2
    ("m", "1", "f") "A" "B" (by decide) (by decide)

/-- C6: compare-and-set semantics.  `acquire_lock` succeeds when the key is
unheld or already held by the caller; re-acquiring twice in a row returns
true both times and leaves exactly one entry for the key; an acquire while
`b` holds the key fails with no state change.  `release_lock` removes the
entry and returns true only when the caller holds the key; otherwise it is
a no-op returning false, so a release by `a` while `b` holds the key leaves
the lock held by `b`. -/
theorem acquire_release_cas (r : Registry) (k : Key) (a b : String)
    (hnd : KeysNodup r) (hab : a ≠ b) :
    ((get_lock_holder r k = none ∨ get_lock_holder r k = some a) →
        (acquire_lock r k a).1 = true) ∧
    ((acquire_lock r k a).1 = true →
        acquire_lock (acquire_lock r k a).2 k a = (true, (acquire_lock r k a).2) ∧
        countKey (acquire_lock r k a).2 k = 1) ∧
    (get_lock_holder r k = some b → acquire_lock r k a = (false, r)) ∧
    (get_lock_holder r k = some a →
        release_lock r k a = (true, eraseA r k) ∧
        get_lock_holder (release_lock r k a).2 k = none) ∧
    (get_lock_holder r k ≠ some a → release_lock r k a = (false, r)) ∧
    (get_lock_holder r k = some b →
        get_lock_holder (release_lock r k a).2 k = some b) := by
  refine ⟨?one, ?two, ?three, ?four, ?five, ?six⟩
  case one =>
    rintro (h | h)
    · rw [acquire_lock_unheld r k a h]
    · rw [acquire_lock_held_self r k a h]
  case two =>
    intro h
    have hold : lookupA (acquire_lock r k a).2 k = some a :=
      acquire_lock_success_holder r k a h
    exact ⟨acquire_lock_held_self _ k a hold,
      countKey_eq_one_of_lookup_some _ k a (keysNodup_acquire r k a hnd) hold⟩
  case three =>
    intro h
    exact acquire_lock_held_other r k h (Ne.symm hab)
  case four =>
    intro h
    exact ⟨release_lock_held_self r k a h, by
      rw [release_lock_held_self r k a h]
      exact lookupA_eraseA_self r k⟩
  case five =>
    intro h
    exact release_lock_not_held r k a h
  case six =>
    intro h
    have hb2 : lookupA r k = some b := h
    have hne : lookupA r k ≠ some a := by
      rw [hb2]
      intro hc
      exact hab (Option.some.inj hc).symm
    rw [release_lock_not_held r k a hne]
    exact h

/-- Witness for C6: with `B` holding the key and `KeysNodup` evaluated on
a concrete registry, an acquire by `A` fails with no state change. -/
theorem acquire_release_cas_witness :
    acquire_lock [((("m", "1", "f") : Key), "B")] ("m", "1", "f") "A" =
      (false, [((("m", "1", "f") : Key), "B")]) :=
  (acquire_release_cas [(("m", "1", "f"), "B")] ("m", "1", "f") "A" "B"
    (by decide) (by decide)).2.2.1 (by decide)

/-- C3: `release_all_locks` removes exactly the entries held by the session
and returns exactly those keys, no more and no fewer; afterwards each of
them is unheld while every entry held by a different holder is unchanged;
`disconnect` obtains its registry by calling `release_all_locks` with the
session id and broadcasts `locks_released` on the entity-kind channel of
every returned key. -/
theorem release_all_completeness (r : Registry) (a : String)
    (hnd : KeysNodup r) :
    (∀ k, k ∈ (release_all_locks r a).1 ↔ get_lock_holder r k = some a) ∧
    (release_all_locks r a).1.Nodup ∧
    (∀ k, k ∈ (release_all_locks r a).1 →
        get_lock_holder (release_all_locks r a).2 k = none) ∧
    (∀ k b, b ≠ a → get_lock_holder r k = some b →
        get_lock_holder (release_all_locks r a).2 k = some b) ∧
    (disconnect r a).1 = (release_all_locks r a).2 ∧
    (∀ k, k ∈ (release_all_locks r a).1 →
        (channelOf k, "locks_released") ∈ (disconnect r a).2) := by
  refine ⟨?one, release_all_fst_nodup r a hnd, ?two, ?three, rfl, ?four⟩
  case one =>
    intro k
    constructor
    · intro hk
      exact lookupA_eq_some_of_mem hnd ((release_all_fst_mem r a k).mp hk)
    · intro hk
      exact (release_all_fst_mem r a k).mpr (lookupA_mem_of_eq_some hk)
  case two =>
    intro k hk
    exact release_all_snd_lookup_self r a k hnd
      (lookupA_eq_some_of_mem hnd ((release_all_fst_mem r a k).mp hk))
  case three =>
    intro k b hb hk
    exact release_all_snd_lookup_ne r a b k hb hk
  case four =>
    intro k hk
    unfold disconnect
    apply List.mem_map_of_mem
    rw [List.mem_dedup]
    exact List.mem_map_of_mem channelOf hk

/-- Embedding of the Django-backed data access used by the editable-field
mixin (`DjangoDataStore`): the existing row ids and the committed field
values, keyed by `(item_id, field_name)`. -/
structure Store where
  items : List String
  fields : List ((String × String) × String)
  deriving DecidableEq

/-- Embedding of `DjangoDataStore.get_field_value`: none when the row does
not exist (DoesNotExist or bad id) or the attribute is absent. -/
def get_field_value (s : Store) (item field : String) : Option String :=
  if item ∈ s.items then lookupA s.fields (item, field) else none

/-- Embedding of `DjangoDataStore.set_field_value`: write the field and
return true when the row exists; on any failure return false with the
store unchanged. -/
def set_field_value (s : Store) (item field value : String) : Bool × Store :=
  if item ∈ s.items then
    (true, { s with fields := setA s.fields (item, field) value })
  else (false, s)

/-- Embedding of `DjangoDataStore.delete_item`: drop the row and its field
values, returning false when the row does not exist. -/
def delete_item (s : Store) (item : String) : Bool × Store :=
  if item ∈ s.items then
    (true, { items := s.items.filter (fun i => !(i == item)),
             fields := s.fields.filter (fun e => !(e.1.1 == item)) })
  else (false, s)

/-- The draft buffer `socket.context.editing`: a dict from the string key
`f"{item_id}:{field_name}"` to the in-progress value. -/
abbrev Editing := List (String × String)

/-- The editing-dict key `f"{item_id}:{field_name}"`. -/
def editKey (item field : String) : String := item ++ ":" ++ field

/-- State a session coordinator acts on: the shared lock registry, this
session's draft buffer, and the data store. -/
structure EditCtx where
  locks : Registry
  editing : Editing
  store : Store
  deriving DecidableEq

/-- Observable outcome of one handler: the state afterwards, the actions
broadcast on the model channel, and whether the view refreshed its
snapshot from the data-access layer. -/
structure HandlerOut where
  ctx : EditCtx
  broadcasts : List String
  refreshed : Bool
  deriving DecidableEq

/-- Embedding of `EditableFieldMixin._handle_start_edit` for a view over
model `label`: acquire the lock; on success fetch the committed value and,
only when one is present, create the draft, refresh and broadcast; on
acquire failure only refresh the lock indicator. -/
def startEdit (label : String) (c : EditCtx) (item field sid : String) :
    HandlerOut :=
  let acq := acquire_lock c.locks (label, item, field) sid
  if acq.1 then
    match get_field_value c.store item field with
    | some v =>
        { ctx := { c with
                    locks := acq.2
                    editing := setA c.editing (editKey item field) v }
          broadcasts := ["state_changed"]
          refreshed := true }
    | none =>
        { ctx := { c with locks := acq.2 }, broadcasts := [], refreshed := false }
  else
    { ctx := { c with locks := acq.2 }, broadcasts := [], refreshed := true }

/-- Embedding of `EditableFieldMixin._handle_cancel_edit`: release the lock
(a no-op when not held), discard the draft, refresh and broadcast
`state_changed`. -/
def cancelEdit (label : String) (c : EditCtx) (item field sid : String) :
    HandlerOut :=
  { ctx := { c with
              locks := (release_lock c.locks (label, item, field) sid).2
              editing := eraseA c.editing (editKey item field) }
    broadcasts := ["state_changed"]
    refreshed := true }

/-- Embedding of the `save_edit` branch of `handle_field_event` composed
with `EditableFieldMixin._handle_save_edit`: the draft value is read from
the editing dict (defaulting to the empty string), the lock holder is
re-verified, and only when it is this session do the write, the release,
the draft discard and the broadcast happen; the boolean result of
`set_field_value` is discarded by the source. -/
def saveEdit (label : String) (c : EditCtx) (item field sid : String) :
    HandlerOut :=
  let value := (lookupA c.editing (editKey item field)).getD ""
  if get_lock_holder c.locks (label, item, field) ≠ some sid then
    { ctx := { c with editing := eraseA c.editing (editKey item field) }
      broadcasts := []
      refreshed := true }
  else
    { ctx := { locks := (release_lock c.locks (label, item, field) sid).2
               editing := eraseA c.editing (editKey item field)
               store := (set_field_value c.store item field value).2 }
      broadcasts := ["state_changed"]
      refreshed := true }

/-- Embedding of the `update_draft` branch of `handle_field_event`:
overwrite the draft entry and refresh; no lock operation, no store write,
no broadcast. -/
def updateDraft (c : EditCtx) (item field value : String) : HandlerOut :=
  { ctx := { c with editing := setA c.editing (editKey item field) value }
    broadcasts := []
    refreshed := true }

/-- Embedding of `GeneratedModelLiveView.handle_info`: events on channels
the view is not subscribed to are dropped; the four standard actions
trigger a full refresh leaving drafts, locks and store untouched;
`conflict` discards the draft for the carried key and refreshes; any other
action is ignored (the handler is total, so no action is fatal). -/
def handleInfo (subscribed : List String) (c : EditCtx)
    (channel action key : String) : HandlerOut :=
  if channel ∈ subscribed then
    if action = "state_changed" ∨ action = "locks_released" ∨
        action = "item_created" ∨ action = "item_deleted" then
      { ctx := c, broadcasts := [], refreshed := true }
    else if action = "conflict" then
      { ctx := { c with editing := eraseA c.editing key }
        broadcasts := []
        refreshed := true }
    else
      { ctx := c, broadcasts := [], refreshed := false }
  else
    { ctx := c, broadcasts := [], refreshed := false }

/-- Embedding of the `delete_item` branch of
`GeneratedModelLiveView.handle_event`: for a non-empty id the code calls
`store.release_all_locks(socket.context.session_id)` — all locks of the
session, not just those on this item — then deletes the row and, on
success, refreshes and broadcasts `item_deleted`. -/
def deleteItem (c : EditCtx) (item sid : String) : HandlerOut :=
  if item = "" then
    { ctx := c, broadcasts := [], refreshed := false }
  else
    if (delete_item c.store item).1 then
      { ctx := { c with
                  locks := (release_all_locks c.locks sid).2
                  store := (delete_item c.store item).2 }
        broadcasts := ["item_deleted"]
        refreshed := true }
    else
      { ctx := { c with
                  locks := (release_all_locks c.locks sid).2
                  store := (delete_item c.store item).2 }
        broadcasts := []
        refreshed := false }

theorem acquire_lock_fail_no_change (r : Registry) (k : Key) (sid : String)
    (h : (acquire_lock r k sid).1 = false) :
    (acquire_lock r k sid).2 = r := by
  cases hl : lookupA r k with
  | none =>
      rw [acquire_lock_unheld r k sid hl] at h
      simp at h
  | some b =>
      by_cases hb : b = sid
      · subst hb
        rw [acquire_lock_held_self r k b hl] at h
        simp at h
      · simp [acquire_lock_held_other r k hl hb]

theorem release_lock_no_self (r : Registry) (k : Key) (sid : String) :
    get_lock_holder (release_lock r k sid).2 k ≠ some sid := by
  by_cases h : lookupA r k = some sid
  · rw [release_lock_held_self r k sid h]
    unfold get_lock_holder
    rw [lookupA_eraseA_self]
    simp
  · rw [release_lock_not_held r k sid h]
    exact h

theorem startEdit_store (label : String) (c : EditCtx)
    (item field sid : String) :
    (startEdit label c item field sid).ctx.store = c.store := by
  unfold startEdit
  by_cases h : (acquire_lock c.locks (label, item, field) sid).1
  · cases hv : get_field_value c.store item field <;> simp [h, hv]
  · simp [h]

/-- C2: save-race safety of `saveEdit`.  With the session's draft for the
key being `v`: if at save time the registry's holder for the key is not
this session (for instance after a force-release by another path), nothing
is written — store and locks unchanged — the draft entry is discarded and
nothing is broadcast; if the holder is this session, `v` is written
through the data store, the lock is released, the draft is discarded and
`state_changed` is broadcast. -/
theorem save_edit_race_safety (label : String) (c : EditCtx)
    (item field sid v : String)
    (hdraft : lookupA c.editing (editKey item field) = some v) :
    (get_lock_holder c.locks (label, item, field) ≠ some sid →
      (saveEdit label c item field sid).ctx.store = c.store ∧
      (saveEdit label c item field sid).ctx.locks = c.locks ∧
      lookupA (saveEdit label c item field sid).ctx.editing
        (editKey item field) = none ∧
      (saveEdit label c item field sid).broadcasts = []) ∧
    (get_lock_holder c.locks (label, item, field) = some sid →
      (saveEdit label c item field sid).ctx.store =
        (set_field_value c.store item field v).2 ∧
      get_lock_holder (saveEdit label c item field sid).ctx.locks
        (label, item, field) = none ∧
      lookupA (saveEdit label c item field sid).ctx.editing
        (editKey item field) = none ∧
      (saveEdit label c item field sid).broadcasts = ["state_changed"]) := by
  constructor
  · intro h
    simp [saveEdit, h, lookupA_eraseA_self]
  · intro h
    have h2 : lookupA c.locks (label, item, field) = some sid := h
    have hrel := release_lock_held_self c.locks (label, item, field) sid h2
    simp [saveEdit, h2, hdraft, hrel, get_lock_holder, lookupA_eraseA_self]

/-- Witness for C2: with the row present, session `S` holding the lock and
draft value `V`, the save writes and broadcasts `state_changed`; the
same call with the lock force-released leaves the store untouched. -/
theorem save_edit_race_safety_witness :
    ((saveEdit "m" ⟨[((("m", "1", "f") : Key), "S")], [("1:f", "V")],
        ⟨["1"], []⟩⟩ "1" "f" "S").broadcasts = ["state_changed"]) ∧
    ((saveEdit "m" ⟨[], [("1:f", "V")], ⟨["1"], []⟩⟩ "1" "f" "S").ctx.store =
      (⟨["1"], []⟩ : Store)) := by
  constructor
  · exact ((save_edit_race_safety "m"
      ⟨[(("m", "1", "f"), "S")], [("1:f", "V")], ⟨["1"], []⟩⟩ "1" "f" "S" "V"
      (by decide)).2 (by decide)).2.2.2
  · exact ((save_edit_race_safety "m"
      ⟨[], [("1:f", "V")], ⟨["1"], []⟩⟩ "1" "f" "S" "V"
      (by decide)).1 (by decide)).1

/-- Witness for C3: in a registry where `A` holds one key and `B` another,
releasing all of `A` returns exactly the key held by `A` and its channel
receives a `locks_released` broadcast on disconnect. -/
theorem release_all_completeness_witness :
    (("m", "1", "f") : Key) ∈
        (release_all_locks [((("m", "1", "f") : Key), "A"),
          (("m", "2", "g"), "B")] "A").1 ∧
      ("alive:m", "locks_released") ∈
        (disconnect [((("m", "1", "f") : Key), "A"),
          (("m", "2", "g"), "B")] "A").2 := by
  have hmem : (("m", "1", "f") : Key) ∈
      (release_all_locks [((("m", "1", "f") : Key), "A"),
        (("m", "2", "g"), "B")] "A").1 :=
    ((release_all_completeness [(("m", "1", "f"), "A"), (("m", "2", "g"), "B")]
      "A" (by decide)).1 ("m", "1", "f")).mpr (by decide)
  exact ⟨hmem,
    (release_all_completeness [(("m", "1", "f"), "A"), (("m", "2", "g"), "B")]
      "A" (by decide)).2.2.2.2.2 ("m", "1", "f") hmem⟩

/-- Counterexample to C4 as stated: on an empty store, the acquire inside
`startEdit` succeeds (the session ends up holding the lock), and yet no
draft entry is created and nothing is broadcast, because the fetch of the
committed value returns none. -/
theorem start_edit_missing_row_counterexample :
    (acquire_lock ([] : Registry) ("m", "1", "f") "S").1 = true ∧
    get_lock_holder (startEdit "m" ⟨[], [], ⟨[], []⟩⟩ "1" "f" "S").ctx.locks
      ("m", "1", "f") = some "S" ∧
    (startEdit "m" ⟨[], [], ⟨[], []⟩⟩ "1" "f" "S").ctx.editing = [] ∧
    (startEdit "m" ⟨[], [], ⟨[], []⟩⟩ "1" "f" "S").broadcasts = [] := by
  decide

/-- C4 (amended): `startEdit` goes through `acquire_lock`; when the acquire
succeeds and the committed value is present, a draft entry equal to that
value is created and a notification is broadcast so other sessions render
the field as remote-locked; when the acquire succeeds but the fetch
returns none, no draft is created and nothing is broadcast; when the
acquire fails, no draft is created and the session only refreshes its
visible lock indicator. -/
theorem start_edit_behaviour (label : String) (c : EditCtx)
    (item field sid v : String) :
    ((acquire_lock c.locks (label, item, field) sid).1 = true →
      get_field_value c.store item field = some v →
      (startEdit label c item field sid).ctx.editing =
        setA c.editing (editKey item field) v ∧
      lookupA (startEdit label c item field sid).ctx.editing
        (editKey item field) = some v ∧
      (startEdit label c item field sid).broadcasts = ["state_changed"] ∧
      get_lock_holder (startEdit label c item field sid).ctx.locks
        (label, item, field) = some sid) ∧
    ((acquire_lock c.locks (label, item, field) sid).1 = true →
      get_field_value c.store item field = none →
      (startEdit label c item field sid).ctx.editing = c.editing ∧
      (startEdit label c item field sid).broadcasts = []) ∧
    ((acquire_lock c.locks (label, item, field) sid).1 = false →
      (startEdit label c item field sid).ctx = c ∧
      (startEdit label c item field sid).broadcasts = [] ∧
      (startEdit label c item field sid).refreshed = true) := by
  refine ⟨?one, ?two, ?three⟩
  case one =>
    intro ha hv
    have hold := acquire_lock_success_holder c.locks (label, item, field) sid ha
    simp [startEdit, ha, hv, lookupA_setA_self, hold]
  case two =>
    intro ha hv
    simp [startEdit, ha, hv]
  case three =>
    intro ha
    have h2 := acquire_lock_fail_no_change c.locks (label, item, field) sid ha
    simp [startEdit, ha, h2]

/-- Witness for C4 (amended): with row "1" committed as "hello" and no
locks, `startEdit` creates the draft equal to "hello". -/
theorem start_edit_behaviour_witness :
    lookupA (startEdit "m" ⟨[], [], ⟨["1"], [(("1", "f"), "hello")]⟩⟩
      "1" "f" "S").ctx.editing (editKey "1" "f") = some "hello" :=
  ((start_edit_behaviour "m" ⟨[], [], ⟨["1"], [(("1", "f"), "hello")]⟩⟩
    "1" "f" "S" "hello").1 (by decide) (by decide)).2.1

/-- C5: bus-event reaction of `handleInfo` on a subscribed channel.  Each
of the four standard actions triggers a full refresh with the session's
drafts, locks and store untouched; a `conflict` carrying a key discards
exactly the draft entry for that key (all other draft entries preserved,
locks and store untouched) and refreshes; an event with any other action
leaves the state unchanged and does not refresh — the handler is a total
function, so no action kind is fatal. -/
theorem handle_info_reaction (subs : List String) (c : EditCtx)
    (channel action key : String) (hsub : channel ∈ subs) :
    (action = "state_changed" ∨ action = "locks_released" ∨
        action = "item_created" ∨ action = "item_deleted" →
      handleInfo subs c channel action key =
        { ctx := c, broadcasts := [], refreshed := true }) ∧
    (action = "conflict" →
      lookupA (handleInfo subs c channel action key).ctx.editing key = none ∧
      (∀ k2, k2 ≠ key →
        lookupA (handleInfo subs c channel action key).ctx.editing k2 =
          lookupA c.editing k2) ∧
      (handleInfo subs c channel action key).ctx.locks = c.locks ∧
      (handleInfo subs c channel action key).ctx.store = c.store ∧
      (handleInfo subs c channel action key).refreshed = true) ∧
    (action ≠ "state_changed" → action ≠ "locks_released" →
      action ≠ "item_created" → action ≠ "item_deleted" →
      action ≠ "conflict" →
      handleInfo subs c channel action key =
        { ctx := c, broadcasts := [], refreshed := false }) := by
  refine ⟨?std, ?conf, ?other⟩
  case std =>
    intro h
    unfold handleInfo
    rw [if_pos hsub, if_pos h]
  case conf =>
    intro h
    subst h
    unfold handleInfo
    rw [if_pos hsub, if_neg (by decide), if_pos rfl]
    refine ⟨lookupA_eraseA_self c.editing key, ?ne, rfl, rfl, rfl⟩
    intro k2 hk2
    exact lookupA_eraseA_ne c.editing hk2
  case other =>
    intro h1 h2 h3 h4 h5
    have hstd : ¬ (action = "state_changed" ∨ action = "locks_released" ∨
        action = "item_created" ∨ action = "item_deleted") := by
      simp [h1, h2, h3, h4]
    unfold handleInfo
    rw [if_pos hsub, if_neg hstd, if_neg h5]

/-- Witness for C5: a `state_changed` event on the subscribed channel
refreshes and leaves the draft buffer as it was. -/
theorem handle_info_reaction_witness :
    handleInfo ["alive:m"] ⟨[], [("1:f", "V")], ⟨[], []⟩⟩ "alive:m"
        "state_changed" "" =
      { ctx := ⟨[], [("1:f", "V")], ⟨[], []⟩⟩, broadcasts := [],
        refreshed := true } :=
  (handle_info_reaction ["alive:m"] ⟨[], [("1:f", "V")], ⟨[], []⟩⟩ "alive:m"
    "state_changed" "" (by decide)).1 (Or.inl rfl)

/-- C7: drafting never writes the store.  `updateDraft` only overwrites the
session's draft entry — locks and store unchanged, nothing broadcast — and
after the sequence `startEdit`, `updateDraft` with value "garbage",
`cancelEdit`, a fetch of the field returns the original committed value,
not "garbage"; `cancelEdit` releases the lock via `release_lock` (a no-op
when not held, never leaving this session as holder), discards the draft,
and broadcasts `state_changed`. -/
theorem update_draft_cancel_no_store_write (label : String) (c : EditCtx)
    (item field sid value : String) :
    ((updateDraft c item field value).ctx.locks = c.locks ∧
      (updateDraft c item field value).ctx.store = c.store ∧
      (updateDraft c item field value).broadcasts = [] ∧
      (updateDraft c item field value).ctx.editing =
        setA c.editing (editKey item field) value) ∧
    ((cancelEdit label c item field sid).ctx.locks =
        (release_lock c.locks (label, item, field) sid).2 ∧
      get_lock_holder (cancelEdit label c item field sid).ctx.locks
        (label, item, field) ≠ some sid ∧
      lookupA (cancelEdit label c item field sid).ctx.editing
        (editKey item field) = none ∧
      (cancelEdit label c item field sid).ctx.store = c.store ∧
      (cancelEdit label c item field sid).broadcasts = ["state_changed"]) ∧
    get_field_value
        (cancelEdit label
          (updateDraft (startEdit label c item field sid).ctx
            item field "garbage").ctx
          item field sid).ctx.store item field =
      get_field_value c.store item field := by
  refine ⟨⟨rfl, rfl, rfl, rfl⟩,
    ⟨rfl, release_lock_no_self c.locks (label, item, field) sid,
      lookupA_eraseA_self c.editing (editKey item field), rfl, rfl⟩, ?sc⟩
  case sc =>
    have h1 : (cancelEdit label
        (updateDraft (startEdit label c item field sid).ctx
          item field "garbage").ctx
        item field sid).ctx.store =
        (startEdit label c item field sid).ctx.store := rfl
    rw [h1, startEdit_store]

/-- C8: evaluation at the failing input.  Row "9" does not exist, so
`set_field_value` returns false; yet `saveEdit`, whose lock re-check
succeeded, never inspects that result (`_handle_save_edit` discards it):
the store is unchanged while the session still releases the lock,
discards the draft, refreshes and broadcasts `state_changed`, surfacing
no per-field error state to the initiating session. -/
theorem save_edit_ignores_rejected_write :
    (set_field_value (⟨[], []⟩ : Store) "9" "f" "V").1 = false ∧
    saveEdit "m" ⟨[((("m", "9", "f") : Key), "S")], [("9:f", "V")], ⟨[], []⟩⟩
        "9" "f" "S" =
      { ctx := ⟨[], [], ⟨[], []⟩⟩, broadcasts := ["state_changed"],
        refreshed := true } := by
  decide

/-- C9: evaluation at the failing input.  Session `S` holds a lock on field
`name` of row "2"; handling the `delete_item` user action for row "1"
calls `release_all_locks` with the session id, so afterwards the lock on
row "2" is gone as well — a coordinator operation other than disconnect
invokes release-all and releases locks on other rows. -/
theorem delete_item_releases_other_row_lock :
    get_lock_holder (deleteItem ⟨[((("m", "2", "name") : Key), "S")], [],
        ⟨["1", "2"], []⟩⟩ "1" "S").ctx.locks ("m", "2", "name") = none ∧
    (deleteItem ⟨[((("m", "2", "name") : Key), "S")], [],
        ⟨["1", "2"], []⟩⟩ "1" "S").broadcasts = ["item_deleted"] := by
  decide

/-- Counterexample to C10 as stated: in the orphaned-lock scenario (acquire
succeeded, fetch returned none, so the session holds the lock with no
draft), a later `saveEdit` by the same session — an operation that is
neither a `cancelEdit` nor the disconnect-triggered release-all — also
removes the lock. -/
theorem orphan_lock_removed_by_save_counterexample :
    get_lock_holder (startEdit "m" ⟨[], [], ⟨[], []⟩⟩ "1" "f" "S").ctx.locks
      ("m", "1", "f") = some "S" ∧
    (startEdit "m" ⟨[], [], ⟨[], []⟩⟩ "1" "f" "S").ctx.editing = [] ∧
    get_lock_holder (saveEdit "m"
        (startEdit "m" ⟨[], [], ⟨[], []⟩⟩ "1" "f" "S").ctx
        "1" "f" "S").ctx.locks ("m", "1", "f") = none := by
  decide

/-- C10 (amended): when `startEdit`'s acquire succeeds but the committed
value is missing, the session remains the recorded holder for the key
while no draft entry is created and nothing is broadcast; no operation by
a different session — acquire, cancel, save, or release-all — removes the
orphaned lock; the session's own `cancelEdit` or its disconnect-triggered
release-all removes it (as, additionally, does its own `saveEdit`). -/
theorem start_edit_orphan_lock (label : String) (c : EditCtx)
    (item field sid : String) (hnd : KeysNodup c.locks)
    (hacq : (acquire_lock c.locks (label, item, field) sid).1 = true)
    (hmiss : get_field_value c.store item field = none) :
    get_lock_holder (startEdit label c item field sid).ctx.locks
      (label, item, field) = some sid ∧
    (startEdit label c item field sid).ctx.editing = c.editing ∧
    (startEdit label c item field sid).broadcasts = [] ∧
    (∀ t, t ≠ sid →
      get_lock_holder (cancelEdit label (startEdit label c item field sid).ctx
          item field t).ctx.locks (label, item, field) = some sid ∧
      get_lock_holder (saveEdit label (startEdit label c item field sid).ctx
          item field t).ctx.locks (label, item, field) = some sid ∧
      get_lock_holder (release_all_locks
          (startEdit label c item field sid).ctx.locks t).2
        (label, item, field) = some sid ∧
      acquire_lock (startEdit label c item field sid).ctx.locks
          (label, item, field) t =
        (false, (startEdit label c item field sid).ctx.locks)) ∧
    get_lock_holder (cancelEdit label (startEdit label c item field sid).ctx
        item field sid).ctx.locks (label, item, field) = none ∧
    get_lock_holder
      (disconnect (startEdit label c item field sid).ctx.locks sid).1
      (label, item, field) = none := by
  have hlocks : (startEdit label c item field sid).ctx.locks =
      (acquire_lock c.locks (label, item, field) sid).2 := by
    simp [startEdit, hacq, hmiss]
  have hold : lookupA (startEdit label c item field sid).ctx.locks
      (label, item, field) = some sid := by
    rw [hlocks]
    exact acquire_lock_success_holder c.locks (label, item, field) sid hacq
  refine ⟨hold, ?ed, ?bc, ?others, ?selfcancel, ?selfdisc⟩
  case ed => simp [startEdit, hacq, hmiss]
  case bc => simp [startEdit, hacq, hmiss]
  case others =>
    intro t ht
    have hne : lookupA (startEdit label c item field sid).ctx.locks
        (label, item, field) ≠ some t := by
      rw [hold]
      intro hc
      exact ht (Option.some.inj hc).symm
    refine ⟨?tc, ?ts, ?tr, ?ta⟩
    case tc =>
      have hcl : (cancelEdit label (startEdit label c item field sid).ctx
          item field t).ctx.locks =
          (release_lock (startEdit label c item field sid).ctx.locks
            (label, item, field) t).2 := rfl
      rw [hcl, release_lock_not_held _ _ _ hne]
      exact hold
    case ts =>
      have hne2 : get_lock_holder (startEdit label c item field sid).ctx.locks
          (label, item, field) ≠ some t := hne
      simp only [saveEdit, if_pos hne2]
      exact hold
    case tr =>
      exact release_all_snd_lookup_ne _ t sid (label, item, field)
        (Ne.symm ht) hold
    case ta =>
      exact acquire_lock_held_other _ (label, item, field) hold
        (fun hc => ht hc.symm)
  case selfcancel =>
    have hcl : (cancelEdit label (startEdit label c item field sid).ctx
        item field sid).ctx.locks =
        (release_lock (startEdit label c item field sid).ctx.locks
          (label, item, field) sid).2 := rfl
    rw [hcl, release_lock_held_self _ _ _ hold]
    exact lookupA_eraseA_self _ _
  case selfdisc =>
    have hnd1 : KeysNodup (startEdit label c item field sid).ctx.locks := by
      rw [hlocks]
      exact keysNodup_acquire c.locks (label, item, field) sid hnd
    exact release_all_snd_lookup_self _ sid (label, item, field) hnd1 hold

/-- Witness for C10 (amended): the orphaned-lock facts evaluated on the
empty registry and empty store. -/
theorem start_edit_orphan_lock_witness :
    get_lock_holder (startEdit "m" ⟨[], [], ⟨[], []⟩⟩ "2" "g" "S").ctx.locks
      ("m", "2", "g") = some "S" :=
  (start_edit_orphan_lock "m" ⟨[], [], ⟨[], []⟩⟩ "2" "g" "S"
    (by decide) (by decide) (by decide)).1

end Alive
